import Mathlib

/-!
Verification development for the MDPC_CSV pharmaceutical computer-system-validation
dashboard.  The definitions below are a shallow embedding of the repository's
business logic:

* `extractCells` embeds the formula-cell extraction loop of
  `handleFileUpload` (src/components/SystemList.tsx);
* `validateSpreadsheet` embeds the spreadsheet-validate operation of
  src/services/geminiService.ts, with the outcome of the external
  text-generation call supplied as an explicit parameter and the number of
  external invocations returned alongside the result;
* `applyDisc` / `applyCorrections` embed the corrected-file regeneration of
  `handleDownloadCorrectedExcel` (src/components/SystemList.tsx);
* `saveInspection` / `getInspections` / `saveExcelReport` / `getExcelReports`
  embed the Record Store (storageService), with the browser key-value store
  modelled as an explicit list value and JS `Array.sort` modelled by
  `List.mergeSort` with the same comparator;
* `runDebounce` embeds the draft-autosave debounce effect
  (src/components/SystemList.tsx, the auto-save `useEffect`), as a
  discrete-event machine over millisecond timestamps;
* `handleUpdateProgress` embeds the progress/status update of src/App.tsx.

JS-specific conventions kept by the embedding: string truthiness
(`if (cell.f)`, `disc.suggestedValue || disc.suggestedFormula`) treats the
empty string like an absent value, modelled by `jsTruthy`; date strings are
modelled by their parsed values (`new Date(s).getTime()` as a natural
number of milliseconds, calendar dates as explicit year/month/day records
in UTC).
-/

namespace MDPC

/-- A JSON-ish cell value as stored by the xlsx sheet object: a string,
a number, or a boolean (`cell.v` in the source). -/
inductive CVal where
| s (v : String)
| n (v : Int)
| b (v : Bool)
deriving DecidableEq

/-- A worksheet cell as the xlsx library exposes it: an optional formula
text `f` (stored without the leading "="), an optional stored value `v`,
and a list of free-text comments `c` (each comment's `t` field). -/
structure Cell where
  f : Option String := none
  v : Option CVal := none
  c : List String := []
deriving DecidableEq

/-- JS truthiness of an optional string: `undefined` and `""` are falsy. -/
def jsTruthy : Option String → Bool
| none => false
| some s => s ≠ ""

/-- The extracted triple pushed by `handleFileUpload`:
`{ address: cell_ref, formula: formula, value: cell.v }`. -/
structure SpreadsheetCell where
  address : String
  formula : String
  value : Option CVal
deriving DecidableEq

/-- Model of `s.startsWith('=')`: the string's first character is "=". -/
def startsWithEq (s : String) : Bool :=
  match s.data with
  | [] => false
  | ch :: _ => ch = '='

/-- The formula string the extraction loop computes for one cell:
`if (cell.f) formula = "=" + cell.f; else if (typeof cell.v === 'string'
&& cell.v.startsWith('=')) formula = cell.v;` — empty when neither test
fires. -/
def markerFormula (cell : Cell) : String :=
  if jsTruthy cell.f then "=" ++ cell.f.getD ""
  else
    match cell.v with
    | some (.s sv) => if startsWithEq sv then sv else ""
    | _ => ""

/-- Spec-side predicate, written from the claim's words: the cell carries an
explicit formula marker, or its stored value is text beginning with "=". -/
def specFormulaCell (cell : Cell) : Bool :=
  jsTruthy cell.f ||
    (match cell.v with
     | some (.s sv) => startsWithEq sv
     | _ => false)

/-- Column letters of `XLSX.utils.encode_cell` (bijective base 26):
0 ↦ "A", 25 ↦ "Z", 26 ↦ "AA", … ; the argument here is the 1-based
column number. -/
def colGo : Nat → String
| 0 => ""
| k + 1 => colGo (k / 26) ++ String.mk [Char.ofNat (65 + k % 26)]
decreasing_by exact Nat.lt_succ_of_le (Nat.div_le_self _ _)

/-- Address encoding `XLSX.utils.encode_cell({c, r})`: column letters followed by the
1-based row number. -/
def encodeCell (r c : Nat) : String :=
  colGo (c + 1) ++ toString (r + 1)

/-- A worksheet's populated rectangular range, row by row; `none` marks an
address with no cell object (the `if (cell)` test in the source). -/
def Grid := List (List (Option Cell))

/-- Inner loop of the extraction (`for C` in the source), starting at
column index `c` of row index `r`: compute the formula string and push the
triple when it is non-empty. -/
def extractRowAux (r c : Nat) : List (Option Cell) → List SpreadsheetCell
| [] => []
| oc :: rest =>
  (match oc with
   | some cell =>
     if markerFormula cell ≠ "" then
       [⟨encodeCell r c, markerFormula cell, cell.v⟩]
     else []
   | none => []) ++ extractRowAux r (c + 1) rest

/-- Outer loop of the extraction (`for R` in the source), starting at row
index `r`. -/
def extractCellsAux (r : Nat) : Grid → List SpreadsheetCell
| [] => []
| row :: rest => extractRowAux r 0 row ++ extractCellsAux (r + 1) rest

/-- The cell list `handleFileUpload` builds from the first worksheet. -/
def extractCells (g : Grid) : List SpreadsheetCell :=
  extractCellsAux 0 g

/-- Row-major enumeration of the present cells of a grid with their
(row, column) coordinates — the reference enumeration the extraction is
compared against. -/
def enumRow (r : Nat) (row : List (Option Cell)) : List (Nat × Nat × Cell) :=
  (List.enumFrom 0 row).filterMap fun p =>
    (p.2).map fun cell => (r, p.1, cell)

/-- Row-major enumeration of a whole grid. -/
def enumGrid (g : Grid) : List (Nat × Nat × Cell) :=
  (List.enumFrom 0 g).flatMap fun p => enumRow p.1 p.2

/-- Number of formula-bearing cells of the sheet (the N of the spec). -/
def formulaCellCount (g : Grid) : Nat :=
  (enumGrid g).countP fun e => specFormulaCell e.2.2

/-- Severity tier of a discrepancy. -/
inductive Severity where
| high
| medium
| low
deriving DecidableEq

/-- One entry of the discrepancy list of an analysis result
(`ExcelAnalysisResult.discrepancies` in src/types). -/
structure Discrepancy where
  address : String
  formula : String
  value : String
  reason : String
  severity : Severity
  suggestedFormula : Option String := none
  suggestedValue : Option String := none
deriving DecidableEq

/-- A calendar date in UTC; `m` is the 0-based month index exactly as JS
`Date.getMonth`/`setMonth` use it. -/
structure CivilDate where
  y : Nat
  m : Nat
  d : Nat
deriving DecidableEq

/-- The analysis result produced by `validateSpreadsheet` and stored by the
Record Store (`ExcelAnalysisResult` in src/types); `date` is the upload
timestamp stamped by `handleFileUpload`, modelled by its calendar date. -/
structure ExcelAnalysisResult where
  fileName : String
  totalFormulas : Nat
  discrepancies : List Discrepancy
  isValid : Bool
  summary : String
  systemId : Option String := none
  date : Option CivilDate := none
  retentionDate : Option CivilDate := none
deriving DecidableEq

/-- Outcome of the external text-generation call made inside
`validateSpreadsheet`: either the whole call/parse throws, or it yields a
parsed JSON object whose `discrepancies` and `summary` fields may each be
missing (the `result.discrepancies || []` / `result.summary || …`
defaults). -/
inductive ExtOutcome where
| failure
| success (discrepancies : Option (List Discrepancy)) (summary : Option String)

/-- The cap applied inside `validateSpreadsheet`:
`cells.filter(c => c.formula).slice(0, 50)`. -/
def formulaCellsOf (cells : List SpreadsheetCell) : List SpreadsheetCell :=
  (cells.filter fun c => c.formula ≠ "").take 50

/-- The synthetic discrepancy of the catch branch of `validateSpreadsheet`. -/
def failureDisc : Discrepancy :=
  { address := "System"
    formula := "N/A"
    value := "Error"
    reason := "AI Analysis Failed"
    severity := .high }

/-- The function `validateSpreadsheet` of src/services/geminiService.ts.  The outcome of
the single external call is the `ext` parameter; the second component of
the result counts how many external calls were issued (0 on the
zero-formula short-circuit, 1 otherwise).  `sopContext` only shapes the
natural-language prompt, never the structured result, and is kept for
signature fidelity. -/
def validateSpreadsheet (fileName : String) (cells : List SpreadsheetCell)
    (sopContext : Option String) (ext : ExtOutcome) :
    ExcelAnalysisResult × Nat :=
  let _ := sopContext
  let formulaCells := formulaCellsOf cells
  if formulaCells.length = 0 then
    ({ fileName := fileName
       totalFormulas := 0
       discrepancies := []
       isValid := true
       summary := "No formulas found in the spreadsheet." }, 0)
  else
    match ext with
    | .success discs summ =>
      let ds := discs.getD []
      ({ fileName := fileName
         totalFormulas := formulaCells.length
         discrepancies := ds
         isValid := ds.length = 0
         summary := summ.getD "Analysis complete." }, 1)
    | .failure =>
      ({ fileName := fileName
         totalFormulas := 0
         discrepancies := [failureDisc]
         isValid := false
         summary := "Could not perform AI validation." }, 1)

/-- A worksheet keyed by address, as `handleDownloadCorrectedExcel` accesses
it (`ws[disc.address]`); a JS object, so its keys are unique. -/
def Ws := List (String × Cell)

/-- First cell stored under an address, `none` when the address is absent
(the falsy `ws[disc.address]` test). -/
def lookupCell : Ws → String → Option Cell
| [], _ => none
| e :: rest, addr => if e.1 = addr then some e.2 else lookupCell rest addr

/-- Replace the cell stored under an address (every entry with that key;
a JS object's keys are unique, so this is the single property write). -/
def updateCell : Ws → String → Cell → Ws
| [], _, _ => []
| e :: rest, addr, cell =>
  (if e.1 = addr then (e.1, cell) else e) :: updateCell rest addr cell

/-- Model of `suggestedFormula.replace('=', '')`: JS `String.replace` with a string
pattern removes only the first occurrence. -/
def removeFirstEqChars : List Char → List Char
| [] => []
| ch :: cs => if ch = '=' then cs else ch :: removeFirstEqChars cs

/-- The formula text written by a suggested-formula correction. -/
def stripFirstEq (s : String) : String :=
  String.mk (removeFirstEqChars s.data)

/-- The free-text comment appended by a correction:
`{ t: ` followed by "MDPC Correction: " and the discrepancy's reason. -/
def correctionNote (reason : String) : String :=
  "MDPC Correction: " ++ reason

/-- JS truthiness test guarding the whole correction body:
`disc.suggestedValue || disc.suggestedFormula`. -/
def hasSuggestion (d : Discrepancy) : Bool :=
  jsTruthy d.suggestedValue || jsTruthy d.suggestedFormula

/-- Body of one correction: `if (disc.suggestedFormula) { ws[..].f = …;
ws[..].v = undefined; } else if (disc.suggestedValue) { ws[..].v = …;
delete ws[..].f; }` followed by pushing the correction comment. -/
def correctCell (d : Discrepancy) (cell : Cell) : Cell :=
  let cell' :=
    if jsTruthy d.suggestedFormula then
      { cell with f := some (stripFirstEq (d.suggestedFormula.getD ""))
                  v := none }
    else if jsTruthy d.suggestedValue then
      { cell with v := some (.s (d.suggestedValue.getD ""))
                  f := none }
    else cell
  { cell' with c := cell'.c ++ [correctionNote d.reason] }

/-- One iteration of the correction loop of `handleDownloadCorrectedExcel`:
skip discrepancies with no (truthy) suggestion; skip addresses absent from
the worksheet; otherwise rewrite the cell through `correctCell`. -/
def applyDisc (ws : Ws) (d : Discrepancy) : Ws :=
  if hasSuggestion d then
    match lookupCell ws d.address with
    | none => ws
    | some cell => updateCell ws d.address (correctCell d cell)
  else ws

/-- The whole correction pass: `excelResult.discrepancies.forEach(...)`. -/
def applyCorrections (ws : Ws) (discs : List Discrepancy) : Ws :=
  discs.foldl applyDisc ws

/-- An inspection record (`InspectionRecord` in src/types); the `date`
string is modelled by its parsed timestamp `new Date(r.date).getTime()`,
a natural number of milliseconds. -/
structure InspectionRecord where
  id : String
  systemId : String
  date : Nat
  inspectorName : String
  notes : String
  parameters : List (String × String) := []
  signature : Option String := none
deriving DecidableEq

/-- The operation `storageService.saveInspection`: parse the stored list, push the new
record, write it back. -/
def saveInspection (store : List InspectionRecord) (record : InspectionRecord) :
    List InspectionRecord :=
  store ++ [record]

/-- The operation `storageService.getInspections`: filter the stored list by `systemId`
and sort by date descending.  JS `sort` with the comparator
`new Date(b.date).getTime() - new Date(a.date).getTime()` is modelled by
`mergeSort` with `b.date ≤ a.date`. -/
def getInspections (store : List InspectionRecord) (systemId : String) :
    List InspectionRecord :=
  (store.filter fun r => r.systemId = systemId).mergeSort
    fun a b => b.date ≤ a.date

/-- Days of the 0-based month `m` of year `y`, with the Gregorian leap
rule — the calendar JS `Date` rollover follows. -/
def daysInMonth (y m : Nat) : Nat :=
  if m = 1 then
    if (y % 4 = 0 && y % 100 ≠ 0) || y % 400 = 0 then 29 else 28
  else if m = 3 || m = 5 || m = 8 || m = 10 then 30
  else 31

/-- Effect of `retention.setMonth(retention.getMonth() + 6)` on a JS `Date` holding
the calendar date `dt`: month arithmetic, with a day-of-month that
overflows the target month rolling into the following month exactly as JS
normalizes it.  (The overflow excess is at most 3 days, so one step of
rollover suffices.) -/
def addSixMonths (dt : CivilDate) : CivilDate :=
  let y' := dt.y + (dt.m + 6) / 12
  let m' := (dt.m + 6) % 12
  if dt.d ≤ daysInMonth y' m' then ⟨y', m', dt.d⟩
  else if m' = 11 then ⟨y' + 1, 0, dt.d - daysInMonth y' m'⟩
  else ⟨y', m' + 1, dt.d - daysInMonth y' m'⟩

/-- Sort key for report timestamps:
`(b.date ? new Date(b.date).getTime() : 0)`; a calendar date is mapped to
a number monotone in calendar order, a missing date to 0. -/
def dateKey : Option CivilDate → Nat
| none => 0
| some dt => ((dt.y * 12 + dt.m) * 32 + dt.d) + 1

/-- The operation `storageService.saveExcelReport`: stamp the 6-month retention date from
the clock read at write time (`new Date()`, whose calendar date is the
`now` parameter), then push the report onto the stored list. -/
def saveExcelReport (now : CivilDate) (store : List ExcelAnalysisResult)
    (report : ExcelAnalysisResult) : List ExcelAnalysisResult :=
  store ++ [{ report with retentionDate := some (addSixMonths now) }]

/-- The operation `storageService.getExcelReports`: filter by `systemId`, sort by date
descending (missing dates sort as 0). -/
def getExcelReports (store : List ExcelAnalysisResult) (systemId : String) :
    List ExcelAnalysisResult :=
  (store.filter fun r => r.systemId = some systemId).mergeSort
    fun a b => dateKey b.date ≤ dateKey a.date

/-- State of the draft-autosave debounce machine for one (user, form-key):
the pending `setTimeout` (its fire deadline in ms and the draft payload it
would write) and the list of draft writes persisted so far, in order. -/
structure DebounceState (α : Type) where
  pending : Option (Nat × α)
  writes : List α

/-- Fire the pending timer if its deadline has been reached by time `t`
(the quiet period elapsed with no new edit). -/
def fireUpTo {α : Type} (s : DebounceState α) (t : Nat) : DebounceState α :=
  match s.pending with
  | some (deadline, payload) =>
    if deadline ≤ t then { pending := none, writes := s.writes ++ [payload] }
    else s
  | none => s

/-- Handle one edit at time `t` carrying the new form state `p`: the
effect cleanup `clearTimeout` cancels any timer that has not yet fired,
and a new 1000 ms timer holding only the latest state is scheduled. -/
def debounceEdit {α : Type} (s : DebounceState α) (t : Nat) (p : α) :
    DebounceState α :=
  let s' := fireUpTo s t
  { pending := some (t + 1000, p), writes := s'.writes }

/-- Run the machine from idle over a timestamped edit sequence, then let
time advance to `tEnd` so a timer whose quiet period has elapsed fires. -/
def runDebounce {α : Type} (events : List (Nat × α)) (tEnd : Nat) :
    DebounceState α :=
  fireUpTo (events.foldl (fun s e => debounceEdit s e.1 e.2)
    { pending := none, writes := [] }) tEnd

/-- Compliance status of an asset (`ComplianceStatus` in src/types). -/
inductive ComplianceStatus where
| compliant
| inProgress
| deviation
| notStarted
deriving DecidableEq

/-- The slice of a `PharmaSystem` the progress-update handler touches. -/
structure PharmaSystem where
  id : String
  progress : Int
  status : ComplianceStatus
  deviationsCount : Nat := 0
deriving DecidableEq

/-- The handler `handleUpdateProgress` of src/App.tsx: map over the systems list,
recomputing the matching system's status from the new progress. -/
def handleUpdateProgress (systems : List PharmaSystem) (id : String)
    (newProgress : Int) : List PharmaSystem :=
  systems.map fun sys =>
    if sys.id = id then
      let newStatus :=
        if newProgress = 100 then ComplianceStatus.compliant
        else if 0 < newProgress ∧ newProgress < 100 then
          if sys.status ≠ ComplianceStatus.deviation then
            ComplianceStatus.inProgress
          else sys.status
        else if newProgress = 0 then ComplianceStatus.notStarted
        else sys.status
      { sys with progress := newProgress, status := newStatus }
    else sys

/-- A sequence of progress updates applied through the handler. -/
def applyUpdates (systems : List PharmaSystem)
    (updates : List (String × Int)) : List PharmaSystem :=
  updates.foldl (fun ss u => handleUpdateProgress ss u.1 u.2) systems

/-- The (address, formula, value) triple the extraction pushes for a
formula-bearing grid entry. -/
def mkTriple (e : Nat × Nat × Cell) : SpreadsheetCell :=
  ⟨encodeCell e.1 e.2.1, markerFormula e.2.2, e.2.2.v⟩

/-- Spec-side predicate, written from the claim's words: the regenerated
cell for a discrepancy carrying a suggestion.  If a suggested formula is
present (JS-truthy) the cell's formula is that suggestion (first "="
removed, as the source stores formulas without the marker) and its literal
value is cleared; otherwise, with a suggested value present, the literal
value is set and the formula removed; in both cases the correction comment
citing the discrepancy's reason is on the cell. -/
def correctedAt (d : Discrepancy) (cf : Cell) : Prop :=
  (jsTruthy d.suggestedFormula = true →
    cf.f = some (stripFirstEq (d.suggestedFormula.getD "")) ∧ cf.v = none) ∧
  (jsTruthy d.suggestedFormula = false →
    cf.v = some (CVal.s (d.suggestedValue.getD "")) ∧ cf.f = none) ∧
  correctionNote d.reason ∈ cf.c

/-- Month count of a calendar date, for stating six-calendar-month shifts. -/
def monthIndex (dt : CivilDate) : Nat :=
  dt.y * 12 + dt.m

/-! ### C9 -/

/-- C9: on every path of `validateSpreadsheet` (zero-formula
short-circuit, successful external call, failure fallback), the produced
result's `isValid` flag is true exactly when its discrepancy list is
empty. -/
theorem c9_isValid_iff_no_discrepancies (fn : String)
    (cells : List SpreadsheetCell) (ctx : Option String) (ext : ExtOutcome) :
    ((validateSpreadsheet fn cells ctx ext).1.isValid = true) ↔
    (validateSpreadsheet fn cells ctx ext).1.discrepancies = [] := by
  unfold validateSpreadsheet
  by_cases h : (formulaCellsOf cells).length = 0
  · simp [h]
  · cases ext with
    | success ds s =>
      simp only [h, if_false]
      simp [List.length_eq_zero]
    | failure =>
      simp [h, failureDisc]

/-! ### C4 -/

/-- C4: when the external call inside `validateSpreadsheet` fails (throws
or yields an unparseable response), the function — which is total, so no
fault reaches the caller — returns a result whose discrepancy list is
exactly the one synthetic failure discrepancy, of severity High, with
`isValid = false`. -/
theorem c4_failure_fallback (fn : String) (cells : List SpreadsheetCell)
    (ctx : Option String) (h : formulaCellsOf cells ≠ []) :
    (validateSpreadsheet fn cells ctx ExtOutcome.failure).1.discrepancies
      = [failureDisc] ∧
    failureDisc.severity = Severity.high ∧
    (validateSpreadsheet fn cells ctx ExtOutcome.failure).1.isValid = false := by
  have h' : ¬((formulaCellsOf cells).length = 0) := by
    simpa [List.length_eq_zero] using h
  unfold validateSpreadsheet
  simp [h', failureDisc]

/-- Witness for C4 at a concrete one-cell input. -/
theorem c4_failure_fallback_witness :
    formulaCellsOf [⟨"A1", "=1+1", none⟩] ≠ [] ∧
    (validateSpreadsheet "book.xlsx" [⟨"A1", "=1+1", none⟩] none
      ExtOutcome.failure).1.isValid = false :=
  ⟨by decide,
   (c4_failure_fallback "book.xlsx" [⟨"A1", "=1+1", none⟩] none
     (by decide)).2.2⟩

/-! ### C8 -/

/-- C8: after any sequence of updates through the progress-update handler,
a further update of asset `i` to progress 100 leaves that asset Compliant
(which in particular satisfies "Compliant unless overridden by a standing
Deviation" — the handler in fact always overrides), and an update to
progress 0 leaves it NotStarted; so no update produces a status transition
inconsistent with the rule. -/
theorem c8_progress_status_rule (systems : List PharmaSystem)
    (us : List (String × Int)) (i : String) (p : Int) (sys' : PharmaSystem)
    (hmem : sys' ∈ handleUpdateProgress (applyUpdates systems us) i p)
    (hid : sys'.id = i) :
    (p = 100 → sys'.status = ComplianceStatus.compliant) ∧
    (p = 0 → sys'.status = ComplianceStatus.notStarted) := by
  unfold handleUpdateProgress at hmem
  rcases List.mem_map.mp hmem with ⟨sys, _, heq⟩
  by_cases hsid : sys.id = i
  · rw [if_pos hsid] at heq
    subst heq
    refine ⟨fun hp => ?_, fun hp => ?_⟩
    · subst hp; simp
    · subst hp; norm_num
  · rw [if_neg hsid] at heq
    subst heq
    exact absurd hid hsid

/-- Witness for C8: a system standing in Deviation, updated to progress 30
and then to 100, ends Compliant. -/
theorem c8_progress_status_rule_witness :
    (⟨"1", 100, ComplianceStatus.compliant, 0⟩ : PharmaSystem) ∈
      handleUpdateProgress
        (applyUpdates [⟨"1", 50, ComplianceStatus.deviation, 0⟩] [("1", 30)])
        "1" 100 ∧
    (⟨"1", 100, ComplianceStatus.compliant, 0⟩ : PharmaSystem).status
      = ComplianceStatus.compliant :=
  ⟨by decide,
   (c8_progress_status_rule [⟨"1", 50, ComplianceStatus.deviation, 0⟩]
     [("1", 30)] "1" 100 ⟨"1", 100, ComplianceStatus.compliant, 0⟩
     (by decide) rfl).1 rfl⟩

/-! ### C5 -/

theorem addSixMonths_month_arith (dt : CivilDate)
    (h : dt.d ≤ daysInMonth (dt.y + (dt.m + 6) / 12) ((dt.m + 6) % 12)) :
    monthIndex (addSixMonths dt) = monthIndex dt + 6 ∧
    (addSixMonths dt).d = dt.d := by
  unfold addSixMonths monthIndex
  rw [if_pos h]
  refine ⟨?_, rfl⟩
  show (dt.y + (dt.m + 6) / 12) * 12 + (dt.m + 6) % 12 = dt.y * 12 + dt.m + 6
  omega

/-- C5: `saveExcelReport` persists the report with a retention date stamped
before the write; when the save-time clock agrees with the report's upload
timestamp (they are read within the same synchronous workflow), the
stamped date is exactly the upload timestamp's calendar date plus six
months (month arithmetic — the month count advances by 6 and the
day-of-month is kept whenever it exists in the target month), computed by
the pure function `addSixMonths` of the timestamp alone (hence
deterministic), and the read path `getExcelReports` only returns stored
records — it never recomputes the stamp. -/
theorem c5_retention_stamp (now : CivilDate)
    (store : List ExcelAnalysisResult) (report : ExcelAnalysisResult)
    (h : report.date = some now) :
    (∃ r', saveExcelReport now store report = store ++ [r'] ∧
      r'.retentionDate = report.date.map addSixMonths ∧
      r'.date = report.date ∧ r'.fileName = report.fileName ∧
      r'.discrepancies = report.discrepancies ∧
      r'.systemId = report.systemId) ∧
    (now.d ≤ daysInMonth (now.y + (now.m + 6) / 12) ((now.m + 6) % 12) →
      monthIndex (addSixMonths now) = monthIndex now + 6 ∧
      (addSixMonths now).d = now.d) ∧
    (∀ sid r, r ∈ getExcelReports (saveExcelReport now store report) sid →
      r ∈ saveExcelReport now store report) := by
  refine ⟨⟨{ report with retentionDate := some (addSixMonths now) },
      rfl, ?_, rfl, rfl, rfl, rfl⟩,
    addSixMonths_month_arith now, ?_⟩
  · rw [h]; rfl
  · intro sid r hr
    unfold getExcelReports at hr
    exact (List.mem_filter.mp (List.mem_mergeSort.mp hr)).1

/-- Witness for C5 at the concrete upload timestamp 2024-01-15 (month
index 0): the stamped retention date is 2024-07-15, six calendar months
later with the day kept. -/
theorem c5_retention_stamp_witness :
    monthIndex (addSixMonths ⟨2024, 0, 15⟩) = monthIndex ⟨2024, 0, 15⟩ + 6 ∧
    (addSixMonths ⟨2024, 0, 15⟩).d = 15 :=
  (c5_retention_stamp ⟨2024, 0, 15⟩ []
    { fileName := "report.xlsx", totalFormulas := 1, discrepancies := [],
      isValid := true, summary := "ok", date := some ⟨2024, 0, 15⟩ }
    rfl).2.1 (by decide)

/-! ### C6 -/

theorem mem_getInspections_iff (store : List InspectionRecord)
    (sid : String) (x : InspectionRecord) :
    x ∈ getInspections store sid ↔ (x ∈ store ∧ x.systemId = sid) := by
  unfold getInspections
  rw [List.mem_mergeSort, List.mem_filter]
  simp

theorem getInspections_sorted (store : List InspectionRecord) (sid : String) :
    (getInspections store sid).Pairwise fun a b => b.date ≤ a.date := by
  unfold getInspections
  have h := @List.sorted_mergeSort InspectionRecord
    (fun a b : InspectionRecord => decide (b.date ≤ a.date))
    (fun a b c hab hbc => by
      simp only [decide_eq_true_eq] at *
      exact Nat.le_trans hbc hab)
    (fun a b => by
      simp only [Bool.or_eq_true, decide_eq_true_eq]
      exact Nat.le_total b.date a.date)
    (store.filter fun r => r.systemId = sid)
  exact h.imp fun hab => by simpa using hab

/-- C6: after `saveInspection r`, `getInspections` for `r`'s asset returns
a list containing `r`; the list returned for any asset holds exactly the
stored records owned by that asset; and when the stored records carry
pairwise-distinct dates the returned list is ordered non-increasing — in
fact strictly decreasing — by date (most recent first). -/
theorem c6_inspection_roundtrip (store : List InspectionRecord)
    (r : InspectionRecord) (sid : String)
    (hdates : ((saveInspection store r).map (fun x => x.date)).Nodup) :
    r ∈ getInspections (saveInspection store r) r.systemId ∧
    (∀ x, x ∈ getInspections (saveInspection store r) sid ↔
      (x ∈ saveInspection store r ∧ x.systemId = sid)) ∧
    (getInspections (saveInspection store r) sid).Pairwise
      (fun a b => b.date ≤ a.date) ∧
    (getInspections (saveInspection store r) sid).Pairwise
      (fun a b => b.date < a.date) := by
  refine ⟨(mem_getInspections_iff _ _ _).mpr
      ⟨List.mem_append_right _ (List.mem_singleton_self r), rfl⟩,
    fun x => mem_getInspections_iff _ _ x,
    getInspections_sorted _ _, ?_⟩
  have hle := getInspections_sorted (saveInspection store r) sid
  have hsub : List.Sublist
      (((saveInspection store r).filter
        (fun x => x.systemId = sid)).map (fun x => x.date))
      ((saveInspection store r).map (fun x => x.date)) :=
    (List.filter_sublist _).map _
  have hnd : (((saveInspection store r).filter
      (fun x => x.systemId = sid)).map (fun x => x.date)).Nodup :=
    hdates.sublist hsub
  have hperm : List.Perm
      ((getInspections (saveInspection store r) sid).map (fun x => x.date))
      (((saveInspection store r).filter
        (fun x => x.systemId = sid)).map (fun x => x.date)) :=
    (List.mergeSort_perm _ _).map _
  have hnd' : ((getInspections (saveInspection store r) sid).map
      (fun x => x.date)).Nodup := hperm.nodup_iff.mpr hnd
  have hne : (getInspections (saveInspection store r) sid).Pairwise
      fun a b => a.date ≠ b.date := by
    rw [List.Nodup, List.pairwise_map] at hnd'
    exact hnd'
  exact (hle.and hne).imp fun hab => Nat.lt_of_le_of_ne hab.1 hab.2.symm

/-- Witness for C6 at a concrete three-record store with distinct dates. -/
theorem c6_inspection_roundtrip_witness :
    (⟨"b", "s1", 10, "Ann", "", [], none⟩ : InspectionRecord) ∈
      getInspections
        (saveInspection
          [⟨"a", "s1", 5, "Bob", "", [], none⟩,
           ⟨"c", "s2", 7, "Cy", "", [], none⟩]
          ⟨"b", "s1", 10, "Ann", "", [], none⟩)
        ("s1" : String) :=
  (c6_inspection_roundtrip
    [⟨"a", "s1", 5, "Bob", "", [], none⟩, ⟨"c", "s2", 7, "Cy", "", [], none⟩]
    ⟨"b", "s1", 10, "Ann", "", [], none⟩ "s1" (by decide)).1

/-! ### C7 -/

theorem getLast?_cons_getD {β : Type} :
    ∀ (l : List β) (a dflt : β),
      ((a :: l).getLast?.getD dflt) = l.getLast?.getD a := by
  intro l
  induction l with
  | nil => intro a dflt; rfl
  | cons b t ih =>
    intro a dflt
    rw [List.getLast?_cons_cons]
    exact (ih b dflt).symm ▸ rfl

theorem debounce_fold_pending {α : Type} :
    ∀ (events : List (Nat × α)) (t0 : Nat) (p0 : α) (w : List α),
      List.Chain' (fun a b => a.1 < b.1 ∧ b.1 < a.1 + 1000)
        ((t0, p0) :: events) →
      events.foldl (fun s e => debounceEdit s e.1 e.2)
          { pending := some (t0 + 1000, p0), writes := w } =
        { pending := some ((events.getLast?.getD (t0, p0)).1 + 1000,
                           (events.getLast?.getD (t0, p0)).2),
          writes := w } := by
  intro events
  induction events with
  | nil => intro t0 p0 w _; rfl
  | cons e rest ih =>
    intro t0 p0 w hch
    rw [List.chain'_cons] at hch
    obtain ⟨⟨_, h2⟩, hch'⟩ := hch
    rw [List.foldl_cons]
    have hstep : debounceEdit { pending := some (t0 + 1000, p0), writes := w }
        e.1 e.2 = { pending := some (e.1 + 1000, e.2), writes := w } := by
      unfold debounceEdit fireUpTo
      simp [Nat.not_le.mpr h2]
    rw [hstep, ih e.1 e.2 w hch']
    rw [getLast?_cons_getD rest e (t0, p0)]

/-- C7: for one (user, form-key), a sequence of edits in which each new
edit arrives within the 1-second debounce window of the previous one
(each resets the timer) followed by a quiet period exceeding the window
results in exactly one persisted draft write, and that write holds only
the final edited state. -/
theorem c7_debounce_single_write {α : Type} (events : List (Nat × α))
    (tL : Nat) (pL : α) (hlast : events.getLast? = some (tL, pL))
    (hchain : events.Chain' fun a b => a.1 < b.1 ∧ b.1 < a.1 + 1000)
    (tEnd : Nat) (hEnd : tL + 1000 < tEnd) :
    (runDebounce events tEnd).writes = [pL] := by
  cases events with
  | nil => simp at hlast
  | cons e0 rest =>
    unfold runDebounce
    rw [List.foldl_cons]
    have hstep : debounceEdit { pending := none, writes := [] } e0.1 e0.2 =
        { pending := some (e0.1 + 1000, e0.2), writes := [] } := rfl
    rw [hstep, debounce_fold_pending rest e0.1 e0.2 [] hchain]
    have hq : rest.getLast?.getD (e0.1, e0.2) = (tL, pL) := by
      have h := getLast?_cons_getD rest (e0.1, e0.2) ((tL, pL) : Nat × α)
      rw [show ((e0.1, e0.2) :: rest) = e0 :: rest from rfl, hlast] at h
      simpa using h.symm
    rw [hq]
    unfold fireUpTo
    simp [Nat.le_of_lt hEnd]

/-- Witness for C7: three edits 0 ms, 500 ms and 900 ms apart from the
start, each within 1 s of the previous, then quiet until 2000 ms: exactly
one write, holding the last state "c". -/
theorem c7_debounce_single_write_witness :
    (runDebounce [(0, "a"), (500, "b"), (900, "c")] 2000).writes = ["c"] :=
  c7_debounce_single_write [(0, "a"), (500, "b"), (900, "c")] 900 "c"
    (by decide)
    (by rw [List.chain'_cons, List.chain'_cons]
        exact ⟨⟨by decide, by decide⟩, ⟨by decide, by decide⟩,
          List.chain'_singleton _⟩)
    2000 (by decide)

/-! ### C1 -/

theorem eq_prepend_ne_empty (t : String) : ("=" ++ t) ≠ "" := by
  intro h
  have hl := congrArg String.length h
  rw [String.length_append] at hl
  have h1 : ("=" : String).length = 1 := rfl
  have h0 : ("" : String).length = 0 := rfl
  omega

theorem startsWithEq_ne_empty (s : String) (h : startsWithEq s = true) :
    s ≠ "" := by
  intro he
  rw [he] at h
  exact absurd h (by decide)

theorem markerFormula_ne_iff (cell : Cell) :
    (markerFormula cell ≠ "") ↔ specFormulaCell cell = true := by
  unfold markerFormula specFormulaCell
  cases hf : jsTruthy cell.f with
  | true =>
    simp only [if_true, Bool.true_or, iff_true]
    exact eq_prepend_ne_empty _
  | false =>
    simp only [Bool.false_eq_true, if_false, Bool.false_or]
    cases hv : cell.v with
    | none => simp
    | some cv =>
      cases cv with
      | s sv =>
        cases hs : startsWithEq sv with
        | true =>
          simp only [hs, if_true, iff_true]
          exact startsWithEq_ne_empty sv hs
        | false => simp [hs]
      | n nv => simp
      | b bv => simp

theorem extractRowAux_eq (r : Nat) :
    ∀ (row : List (Option Cell)) (c : Nat),
      extractRowAux r c row =
        (((List.enumFrom c row).filterMap fun p =>
            (p.2).map fun cell => (r, p.1, cell)).filter fun e =>
          specFormulaCell e.2.2).map mkTriple := by
  intro row
  induction row with
  | nil => intro c; rfl
  | cons oc rest ih =>
    intro c
    rw [List.enumFrom_cons, List.filterMap_cons]
    cases oc with
    | none =>
      rw [extractRowAux]
      simp only [Option.map_none', List.nil_append]
      exact ih (c + 1)
    | some cell =>
      rw [extractRowAux, Option.map_some', List.filter_cons]
      by_cases hm : specFormulaCell cell = true
      · have hne : markerFormula cell ≠ "" := (markerFormula_ne_iff cell).mpr hm
        simp only [hm, ite_true, hne, ne_eq, not_false_eq_true,
          List.map_cons, List.singleton_append]
        rw [ih (c + 1)]
        rfl
      · have hne : ¬(markerFormula cell ≠ "") := fun hcon =>
          hm ((markerFormula_ne_iff cell).mp hcon)
        simp only [hm, ite_false, hne, List.nil_append]
        exact ih (c + 1)

theorem extractCellsAux_eq :
    ∀ (g : Grid) (r : Nat),
      extractCellsAux r g =
        (((List.enumFrom r g).flatMap fun p => enumRow p.1 p.2).filter
          fun e => specFormulaCell e.2.2).map mkTriple := by
  intro g
  induction g with
  | nil => intro r; rfl
  | cons row rest ih =>
    intro r
    rw [List.enumFrom_cons, List.flatMap_cons, List.filter_append,
      List.map_append, extractCellsAux]
    rw [extractRowAux_eq r row 0, ih (r + 1)]
    rfl

theorem extractCells_spec (g : Grid) :
    extractCells g =
      ((enumGrid g).filter fun e => specFormulaCell e.2.2).map mkTriple :=
  extractCellsAux_eq g 0

theorem extractCells_length (g : Grid) :
    (extractCells g).length = formulaCellCount g := by
  rw [extractCells_spec, List.length_map]
  unfold formulaCellCount
  rw [List.countP_eq_length_filter]

theorem extractCells_formula_ne (g : Grid) :
    ∀ t ∈ extractCells g, t.formula ≠ "" := by
  intro t ht
  rw [extractCells_spec] at ht
  rcases List.mem_map.mp ht with ⟨e, he, rfl⟩
  exact (markerFormula_ne_iff e.2.2).mpr (List.mem_filter.mp he).2

theorem formulaCellsOf_extractCells (g : Grid) :
    formulaCellsOf (extractCells g) = (extractCells g).take 50 := by
  unfold formulaCellsOf
  congr 1
  apply List.filter_eq_self.mpr
  intro t ht
  simpa using extractCells_formula_ne g t ht

/-- C1: the extraction step collects (address, formula, value) triples for
exactly the grid cells carrying an explicit formula marker or a string
value beginning with "=", in row-major order (`enumGrid` enumerates the
present cells row-major); the extracted list has exactly N = number of
formula-bearing cells entries; the cap applied before the external call
keeps the whole list unchanged when N ≤ 50 and otherwise exactly the
first 50 extracted cells in row-major order. -/
theorem c1_extraction_exact_and_cap (g : Grid) :
    (extractCells g).length = formulaCellCount g ∧
    extractCells g =
      ((enumGrid g).filter fun e => specFormulaCell e.2.2).map mkTriple ∧
    formulaCellsOf (extractCells g) = (extractCells g).take 50 ∧
    (50 < formulaCellCount g →
      (formulaCellsOf (extractCells g)).length = 50) := by
  refine ⟨extractCells_length g, extractCells_spec g,
    formulaCellsOf_extractCells g, fun h => ?_⟩
  rw [formulaCellsOf_extractCells, List.length_take, extractCells_length]
  exact Nat.min_eq_left (Nat.le_of_lt h)

/-- Witness for C1 on a one-row grid of 51 formula cells: the cap keeps
exactly 50 of them. -/
theorem c1_extraction_exact_and_cap_witness :
    50 < formulaCellCount [List.replicate 51 (some { f := some "1+1" })] ∧
    (formulaCellsOf (extractCells
      [List.replicate 51 (some { f := some "1+1" })])).length = 50 :=
  ⟨by decide,
   (c1_extraction_exact_and_cap
     [List.replicate 51 (some { f := some "1+1" })]).2.2.2 (by decide)⟩

/-! ### C2 -/

/-- C2: when the uploaded sheet has zero formula-bearing cells,
`validateSpreadsheet` on the extracted cell list short-circuits to the
trivially valid result (`totalFormulas = 0`, no discrepancies,
`isValid = true`) and performs zero external calls, whatever the external
capability would have answered. -/
theorem c2_zero_formula_short_circuit (g : Grid) (fn : String)
    (ctx : Option String) (ext : ExtOutcome)
    (h : formulaCellCount g = 0) :
    validateSpreadsheet fn (extractCells g) ctx ext =
      ({ fileName := fn, totalFormulas := 0, discrepancies := [],
         isValid := true,
         summary := "No formulas found in the spreadsheet." }, 0) := by
  have hlen : (extractCells g).length = 0 := by rw [extractCells_length, h]
  rw [List.length_eq_zero.mp hlen]
  rfl

/-- Witness for C2 on a concrete formula-free sheet. -/
theorem c2_zero_formula_short_circuit_witness :
    formulaCellCount [[some { v := some (CVal.n 3) }, none],
      [some { v := some (CVal.s "abc") }]] = 0 ∧
    validateSpreadsheet "book.xlsx"
      (extractCells [[some { v := some (CVal.n 3) }, none],
        [some { v := some (CVal.s "abc") }]]) none ExtOutcome.failure =
      ({ fileName := "book.xlsx", totalFormulas := 0, discrepancies := [],
         isValid := true,
         summary := "No formulas found in the spreadsheet." }, 0) :=
  ⟨by decide,
   c2_zero_formula_short_circuit
     [[some { v := some (CVal.n 3) }, none],
      [some { v := some (CVal.s "abc") }]]
     "book.xlsx" none ExtOutcome.failure (by decide)⟩

/-! ### C3 and C10: corrected-file regeneration -/

theorem lookupCell_updateCell_ne (addr a : String) (cell : Cell)
    (h : a ≠ addr) :
    ∀ ws : Ws, lookupCell (updateCell ws addr cell) a = lookupCell ws a := by
  intro ws
  induction ws with
  | nil => rfl
  | cons e rest ih =>
    rw [updateCell]
    by_cases he : e.1 = addr
    · have hna : ¬(e.1 = a) := fun hc => h (hc ▸ he)
      rw [if_pos he]
      simp only [lookupCell]
      rw [if_neg hna, if_neg hna]
      exact ih
    · rw [if_neg he]
      simp only [lookupCell]
      by_cases hea : e.1 = a
      · rw [if_pos hea, if_pos hea]
      · rw [if_neg hea, if_neg hea]
        exact ih

theorem lookupCell_updateCell_eq (addr : String) (cell c0 : Cell) :
    ∀ ws : Ws, lookupCell ws addr = some c0 →
      lookupCell (updateCell ws addr cell) addr = some cell := by
  intro ws
  induction ws with
  | nil => intro h; cases h
  | cons e rest ih =>
    intro h
    rw [updateCell]
    by_cases he : e.1 = addr
    · rw [if_pos he, lookupCell, if_pos he]
    · rw [if_neg he, lookupCell, if_neg he]
      rw [lookupCell, if_neg he] at h
      exact ih h

theorem updateCell_of_lookup_none (addr : String) (cell : Cell) :
    ∀ ws : Ws, lookupCell ws addr = none → updateCell ws addr cell = ws := by
  intro ws
  induction ws with
  | nil => intro _; rfl
  | cons e rest ih =>
    intro h
    rw [lookupCell] at h
    by_cases he : e.1 = addr
    · rw [if_pos he] at h; cases h
    · rw [if_neg he] at h
      rw [updateCell, if_neg he, ih h]

theorem lookupCell_updateCell_none (addr a : String) (cell : Cell)
    (ws : Ws) (h : lookupCell ws a = none) :
    lookupCell (updateCell ws addr cell) a = none := by
  by_cases hea : a = addr
  · subst hea
    rw [updateCell_of_lookup_none a cell ws h]
    exact h
  · rw [lookupCell_updateCell_ne addr a cell hea ws]
    exact h

theorem lookupCell_applyDisc_other (ws : Ws) (d : Discrepancy) (a : String)
    (h : hasSuggestion d = false ∨ d.address ≠ a) :
    lookupCell (applyDisc ws d) a = lookupCell ws a := by
  unfold applyDisc
  rcases h with h | h
  · rw [h]; rfl
  · cases hs : hasSuggestion d with
    | false => rfl
    | true =>
      simp only [if_true]
      cases hl : lookupCell ws d.address with
      | none => rfl
      | some cell =>
        exact lookupCell_updateCell_ne d.address a _ (fun hc => h hc.symm) ws

theorem lookupCell_applyDisc_none (ws : Ws) (d : Discrepancy) (a : String)
    (h : lookupCell ws a = none) :
    lookupCell (applyDisc ws d) a = none := by
  unfold applyDisc
  cases hs : hasSuggestion d with
  | false => exact h
  | true =>
    simp only [if_true]
    cases hl : lookupCell ws d.address with
    | none => exact h
    | some cell => exact lookupCell_updateCell_none d.address a _ ws h

theorem lookupCell_applyCorrections_none :
    ∀ (discs : List Discrepancy) (ws : Ws) (a : String),
      lookupCell ws a = none →
      lookupCell (applyCorrections ws discs) a = none := by
  intro discs
  induction discs with
  | nil => intro ws a h; exact h
  | cons d rest ih =>
    intro ws a h
    unfold applyCorrections
    rw [List.foldl_cons]
    exact ih _ a (lookupCell_applyDisc_none ws d a h)

theorem lookupCell_applyCorrections_frame :
    ∀ (discs : List Discrepancy) (ws : Ws) (a : String),
      (∀ d' ∈ discs, hasSuggestion d' = true → d'.address ≠ a) →
      lookupCell (applyCorrections ws discs) a = lookupCell ws a := by
  intro discs
  induction discs with
  | nil => intro ws a _; rfl
  | cons d rest ih =>
    intro ws a h
    unfold applyCorrections
    rw [List.foldl_cons]
    have hstep : lookupCell (applyDisc ws d) a = lookupCell ws a := by
      apply lookupCell_applyDisc_other
      cases hs : hasSuggestion d with
      | false => exact Or.inl rfl
      | true => exact Or.inr (h d (List.mem_cons_self d rest) hs)
    exact (ih (applyDisc ws d) a
      (fun d' hd' => h d' (List.mem_cons_of_mem d hd'))).trans hstep

theorem correctedAt_correctCell (d : Discrepancy) (cell : Cell)
    (hs : hasSuggestion d = true) : correctedAt d (correctCell d cell) := by
  unfold correctedAt correctCell
  cases hf : jsTruthy d.suggestedFormula with
  | true =>
    exact ⟨fun _ => by simp, fun hff => absurd hff (by decide), by simp⟩
  | false =>
    have hv : jsTruthy d.suggestedValue = true := by
      unfold hasSuggestion at hs
      rw [hf] at hs
      simpa using hs
    exact ⟨fun hff => absurd hff (by decide), fun _ => by simp [hv],
      by simp [hv]⟩

theorem correctedAt_preserved :
    ∀ (rest : List Discrepancy) (ws : Ws) (d : Discrepancy) (cm : Cell),
      hasSuggestion d = true →
      (∀ d' ∈ rest, hasSuggestion d' = true → d'.address = d.address →
        d' = d) →
      lookupCell ws d.address = some cm → correctedAt d cm →
      ∃ cf, lookupCell (applyCorrections ws rest) d.address = some cf ∧
        correctedAt d cf := by
  intro rest
  induction rest with
  | nil => intro ws d cm _ _ hl hg; exact ⟨cm, hl, hg⟩
  | cons d' rest ih =>
    intro ws d cm hs huniq hl hg
    unfold applyCorrections
    rw [List.foldl_cons]
    by_cases hcase : hasSuggestion d' = true ∧ d'.address = d.address
    · have hdd : d' = d := huniq d' (List.mem_cons_self d' rest) hcase.1 hcase.2
      subst hdd
      have hstep : lookupCell (applyDisc ws d') d'.address =
          some (correctCell d' cm) := by
        unfold applyDisc
        rw [hs]
        simp only [if_true, hl]
        exact lookupCell_updateCell_eq d'.address _ cm ws hl
      exact ih (applyDisc ws d') d' (correctCell d' cm) hs
        (fun x hx => huniq x (List.mem_cons_of_mem d' hx))
        hstep (correctedAt_correctCell d' cm hs)
    · have hside : hasSuggestion d' = false ∨ d'.address ≠ d.address := by
        by_cases h1 : hasSuggestion d' = true
        · exact Or.inr fun h2 => hcase ⟨h1, h2⟩
        · exact Or.inl (by simpa using h1)
      have hstep : lookupCell (applyDisc ws d') d.address = some cm := by
        rw [lookupCell_applyDisc_other ws d' d.address hside]
        exact hl
      exact ih (applyDisc ws d') d cm hs
        (fun x hx => huniq x (List.mem_cons_of_mem d' hx)) hstep hg

theorem applyCorrections_effect :
    ∀ (discs : List Discrepancy) (ws : Ws) (d : Discrepancy) (cell0 : Cell),
      d ∈ discs → hasSuggestion d = true →
      lookupCell ws d.address = some cell0 →
      (∀ d' ∈ discs, hasSuggestion d' = true → d'.address = d.address →
        d' = d) →
      ∃ cf, lookupCell (applyCorrections ws discs) d.address = some cf ∧
        correctedAt d cf := by
  intro discs
  induction discs with
  | nil => intro ws d cell0 hmem; cases hmem
  | cons dh rest ih =>
    intro ws d cell0 hmem hs hcell huniq
    by_cases hcase : hasSuggestion dh = true ∧ dh.address = d.address
    · have hdd : dh = d := huniq dh (List.mem_cons_self dh rest) hcase.1 hcase.2
      subst hdd
      unfold applyCorrections
      rw [List.foldl_cons]
      have hstep : lookupCell (applyDisc ws dh) dh.address =
          some (correctCell dh cell0) := by
        unfold applyDisc
        rw [hs]
        simp only [if_true, hcell]
        exact lookupCell_updateCell_eq dh.address _ cell0 ws hcell
      exact correctedAt_preserved rest (applyDisc ws dh) dh
        (correctCell dh cell0) hs
        (fun x hx => huniq x (List.mem_cons_of_mem dh hx))
        hstep (correctedAt_correctCell dh cell0 hs)
    · have hside : hasSuggestion dh = false ∨ dh.address ≠ d.address := by
        by_cases h1 : hasSuggestion dh = true
        · exact Or.inr fun h2 => hcase ⟨h1, h2⟩
        · exact Or.inl (by simpa using h1)
      have hmem' : d ∈ rest := by
        rcases List.mem_cons.mp hmem with rfl | hmem'
        · exact absurd ⟨hs, rfl⟩ hcase
        · exact hmem'
      unfold applyCorrections
      rw [List.foldl_cons]
      have hstep : lookupCell (applyDisc ws dh) d.address = some cell0 := by
        rw [lookupCell_applyDisc_other ws dh d.address hside]
        exact hcell
      exact ih (applyDisc ws dh) d cell0 hmem' hs hstep
        (fun x hx => huniq x (List.mem_cons_of_mem dh hx))

/-- C3: in corrected-file regeneration, for a discrepancy `d` carrying a
suggestion whose address holds a cell of the original worksheet (and which
is the only suggestion-carrying discrepancy at that address), the
regenerated cell satisfies `correctedAt`: a present suggested formula
replaces the cell's formula (stored without the leading "=") and clears
its literal value, otherwise the present suggested value is written and
the formula removed, and in both cases the correction comment citing the
discrepancy's reason is appended; and every worksheet address targeted by
no suggestion-carrying discrepancy is left untouched. -/
theorem c3_corrections_applied (ws : Ws) (discs : List Discrepancy)
    (d : Discrepancy) (cell0 : Cell)
    (hmem : d ∈ discs) (hs : hasSuggestion d = true)
    (hcell : lookupCell ws d.address = some cell0)
    (huniq : ∀ d' ∈ discs, hasSuggestion d' = true →
      d'.address = d.address → d' = d) :
    (∃ cf, lookupCell (applyCorrections ws discs) d.address = some cf ∧
      correctedAt d cf) ∧
    (∀ a, (∀ d' ∈ discs, hasSuggestion d' = true → d'.address ≠ a) →
      lookupCell (applyCorrections ws discs) a = lookupCell ws a) :=
  ⟨applyCorrections_effect discs ws d cell0 hmem hs hcell huniq,
   fun a ha => lookupCell_applyCorrections_frame discs ws a ha⟩

/-- Witness for C3: a suggested value "42" at "B2" clears the formula,
writes the value and appends the annotation, while untargeted "A1" is
untouched. -/
theorem c3_corrections_applied_witness :
    lookupCell
      (applyCorrections
        [("A1", { v := some (CVal.n 1) }),
         ("B2", { f := some "A1+A2", v := some (CVal.n 5) })]
        [{ address := "B2", formula := "=A1+A2", value := "5",
           reason := "Hardcoded value", severity := Severity.high,
           suggestedValue := some "42" }])
      "B2" =
      some { f := none, v := some (CVal.s "42"),
             c := ["MDPC Correction: Hardcoded value"] } ∧
    lookupCell
      (applyCorrections
        [("A1", { v := some (CVal.n 1) }),
         ("B2", { f := some "A1+A2", v := some (CVal.n 5) })]
        [{ address := "B2", formula := "=A1+A2", value := "5",
           reason := "Hardcoded value", severity := Severity.high,
           suggestedValue := some "42" }])
      "A1" = some { v := some (CVal.n 1) } := by
  have h := c3_corrections_applied
    [("A1", { v := some (CVal.n 1) }),
     ("B2", { f := some "A1+A2", v := some (CVal.n 5) })]
    [{ address := "B2", formula := "=A1+A2", value := "5",
       reason := "Hardcoded value", severity := Severity.high,
       suggestedValue := some "42" }]
    { address := "B2", formula := "=A1+A2", value := "5",
      reason := "Hardcoded value", severity := Severity.high,
      suggestedValue := some "42" }
    { f := some "A1+A2", v := some (CVal.n 5) }
    (by decide) (by decide) (by decide) (by decide)
  exact ⟨by decide, h.2 "A1" (by decide)⟩

/-- C10: a discrepancy's correction at an address absent from the original
worksheet is silently skipped — no cell is created there (so no value,
formula or comment is written), a suggestion-carrying discrepancy at a
missing address leaves the worksheet entirely unchanged, and the synthetic
failure discrepancy (address "System", no suggestions) never modifies the
worksheet at all. -/
theorem c10_missing_address_skipped (ws : Ws) (discs : List Discrepancy)
    (d : Discrepancy) (a : String) :
    (lookupCell ws a = none →
      lookupCell (applyCorrections ws discs) a = none) ∧
    (hasSuggestion d = true → lookupCell ws d.address = none →
      applyDisc ws d = ws) ∧
    applyDisc ws failureDisc = ws := by
  refine ⟨fun h => lookupCell_applyCorrections_none discs ws a h,
    fun hs hl => ?_, rfl⟩
  unfold applyDisc
  rw [hs]
  simp only [if_true, hl]

/-- Witness for C10: the synthetic failure discrepancy and a
suggestion-carrying discrepancy at absent address "B9" leave a one-cell
worksheet without a "B9" cell. -/
theorem c10_missing_address_skipped_witness :
    lookupCell [("A1", ({ v := some (CVal.n 1) } : Cell))] "B9" = none ∧
    lookupCell
      (applyCorrections [("A1", ({ v := some (CVal.n 1) } : Cell))]
        [failureDisc,
         { address := "B9", formula := "", value := "", reason := "r",
           severity := Severity.low, suggestedValue := some "42" }])
      "B9" = none :=
  ⟨by decide,
   (c10_missing_address_skipped [("A1", { v := some (CVal.n 1) })]
     [failureDisc,
      { address := "B9", formula := "", value := "", reason := "r",
        severity := Severity.low, suggestedValue := some "42" }]
     failureDisc "B9").1 (by decide)⟩

end MDPC
